import Mathlib

/-!
Verification development for the cv2pipeline frame-watching subsystem.

Shallow embedding of `src/detectors/framewatcher.py` (class `FrameWatcher`)
and the synchronous driver `src/demo.py`.  Timestamps and durations are
rationals (seconds); frames are concrete pixel grids; machine loops become
fuel-indexed recursions; in-place array mutation is modelled by an explicit
heap where aliasing matters.

The `FrameBuffer` class (`src/frame_buffer.py`) is not among the sources;
where its behaviour decides a property, it is modelled from the spec
(section 2/3: fixed capacity, write cursor advancing by one mod capacity,
whole-slot replacement on write) and marked as such.
-/

/-- A video frame: an opaque 2-D pixel grid. -/
abbrev Img := List (List Nat)

/-- A detection event; opaque to the core (spec section 3), so any carrier
with decidable equality serves. -/
abbrev DetEvent := String

/-! ## FPS telemetry (`FrameWatcher._track_fps`, `FPS_FRAMES`, `__init__`) -/

/-- `FrameWatcher.FPS_FRAMES = 20` (framewatcher.py line 25). -/
def FPS_FRAMES : Nat := 20

/-- The FPS-related fields set up by `FrameWatcher.__init__`
(framewatcher.py lines 43-45): `_fps_counter`, `_fps_time`, `_fps`. -/
structure FpsState where
  fpsCounter : Nat
  fpsTime : ℚ
  fps : ℚ
  deriving DecidableEq

/-- `FrameWatcher._track_fps` (framewatcher.py lines 116-124).  The wall
clock `datetime.now()` is passed in as `now`.  Python would raise
`ZeroDivisionError` on a zero elapsed time; in `ℚ` the division is total
and every theorem below evaluates it only at a positive elapsed time. -/
def trackFps (now : ℚ) (s : FpsState) : FpsState × ℚ :=
  let c := s.fpsCounter + 1
  if c = FPS_FRAMES then
    let timeS := now - s.fpsTime
    let newFps := (FPS_FRAMES : ℚ) / timeS
    ({ fpsCounter := 0, fpsTime := now, fps := newFps }, newFps)
  else
    ({ s with fpsCounter := c }, s.fps)

/-- Initial FPS state at construction time `t0`
(`_fps_counter=0`, `_fps_time=now`, `_fps=0.0`). -/
def initFps (t0 : ℚ) : FpsState := { fpsCounter := 0, fpsTime := t0, fps := 0 }

/-- Feed a sequence of `_track_fps` calls at the given wall-clock times. -/
def feedTimes (ts : List ℚ) (s : FpsState) : FpsState :=
  ts.foldl (fun s t => (trackFps t s).1) s

/-- Wall-clock times of `n` frames at a fixed interval `T` after `t0`. -/
def fixedTimes (t0 T : ℚ) (n : Nat) : List ℚ :=
  (List.range n).map (fun i => t0 + T * ((i : ℚ) + 1))

/-! ## The per-frame processing contract (`FrameWatcher.process_frame`,
`FrameWatcher._custom_processing`) -/

/-- The two cv2 drawing primitives used by `process_frame`
(`cv2.circle`, `cv2.putText`); their pixel-level behaviour is out of scope
(spec section 1), so they are parameters.  `putText` receives the watcher
name and fps value that make up the overlay text. -/
structure DrawOps where
  circle : Img → Img
  putText : String → ℚ → Img → Img

/-- Watcher fields touched by `process_frame`: `name`, `_prev_timestamp`
and the FPS state (framewatcher.py lines 40-45). -/
structure PFState where
  name : String
  prevTimestamp : ℚ
  fpsState : FpsState
  deriving DecidableEq

/-- `FrameWatcher.process_frame` (framewatcher.py lines 126-152), value
level: copy the frame (`np.array`), compute the elapsed time since the
previous processed frame (telemetry only — the value is unused), update the
rolling FPS counter (its `datetime.now()` is the `now` argument), stamp the
circle marker and FPS text, then delegate to the variant-specific step.
Note that `process_frame` itself does not update `_prev_timestamp` (that
happens in `_watch`, line 91).  Aliasing of the copy is modelled separately
in the heap embedding below. -/
def processFrame (ops : DrawOps)
    (custom : ℚ → Img → Img × Option (List DetEvent))
    (now : ℚ) (s : PFState) (timestamp : ℚ) (frame : Img) :
    PFState × Img × Option (List DetEvent) :=
  let frameCopy := frame
  let _timeDelta := timestamp - s.prevTimestamp
  let (fpsState, fps) := trackFps now s.fpsState
  let processed := ops.circle frameCopy
  let processed := ops.putText s.name fps processed
  let (processed, events) := custom timestamp processed
  ({ s with fpsState := fpsState }, processed, events)

/-- The base-class `FrameWatcher._custom_processing` (framewatcher.py lines
154-173): returns the frame unchanged and `events = list()`.  `none` stands
for Python `None`; the stub never produces it. -/
def baseCustom : ℚ → Img → Img × Option (List DetEvent) :=
  fun _ frame => (frame, some [])

/-! ## FrameBuffer and the watcher catch-up loop (`FrameWatcher._watch`) -/

/-- The FrameBuffer interface consumed by `_watch`: capacity `buffer_len`,
slot store `buffer`, write cursor `frame_index`.  Frame payloads are `Nat`
identifiers (their pixels play no role in the loop). -/
structure Buf where
  len : Nat
  slots : Nat → Option (ℚ × Nat)
  writeIndex : Nat

/-- Modelled from the spec: the producer side of `FrameBuffer`
(`src/frame_buffer.py` is not among the sources).  Per spec sections 2-3
and 6, a write advances the write cursor by one, wrapping at the capacity,
and replaces that slot wholesale with the new (timestamp, frame) pair. -/
def bufWrite (b : Buf) (t : ℚ) (f : Nat) : Buf :=
  let idx := (b.writeIndex + 1) % b.len
  { b with writeIndex := idx,
           slots := fun i => if i = idx then some (t, f) else b.slots i }

/-- Modelled from the spec: a sequence of producer writes. -/
def bufWriteMany (b : Buf) (ws : List (ℚ × Nat)) : Buf :=
  ws.foldl (fun b w => bufWrite b w.1 w.2) b

/-- The consumer-side state of `_watch`: local cursor `_frame_index`,
`_prev_timestamp`, and the ordered log of frames handed to
`process_frame`. -/
structure ConsumerSt where
  frameIndex : Nat
  prevTimestamp : ℚ
  processed : List (ℚ × Nat)
  deriving DecidableEq

/-- Outcome of one iteration of the inner catch-up loop body. -/
inductive StepRes
  | cont (st : ConsumerSt)
  | err (e : String) (st : ConsumerSt)
  deriving DecidableEq

/-- Consumer state carried by a step outcome (the cursor has advanced in
either case, since line 82 runs before `process_frame`). -/
def StepRes.state : StepRes → ConsumerSt
  | .cont st => st
  | .err _ st => st

/-- One iteration of the inner loop body of `_watch` (framewatcher.py lines
82-91), entered with `_frame_index ≠ buffer.frame_index`: advance the local
cursor by one mod `buffer_len`; read the slot; `None` is skipped
(`continue`); otherwise dispatch to `process_frame` — abstracted as `proc`,
which may raise — and on success record the slot timestamp as
`_prev_timestamp` and log the processed frame. -/
def watchStep (b : Buf) (proc : ℚ → Nat → Except String Unit)
    (st : ConsumerSt) : StepRes :=
  let idx := (st.frameIndex + 1) % b.len
  match b.slots idx with
  | none => .cont { st with frameIndex := idx }
  | some (t, f) =>
    match proc t f with
    | .error e => .err e { st with frameIndex := idx }
    | .ok _ => .cont { st with frameIndex := idx, prevTimestamp := t,
                               processed := st.processed ++ [(t, f)] }

/-- Result of one run of the inner `while` loop of `_watch` against a fixed
buffer state.  `synced` is the normal exit (`_frame_index` caught up with
the write cursor); `failed` is an exception escaping `process_frame`;
`fuelOut` marks fuel exhaustion and is proved unreachable for in-range
cursors. -/
inductive PassResult
  | synced (st : ConsumerSt)
  | failed (e : String) (st : ConsumerSt)
  | fuelOut (st : ConsumerSt)
  deriving DecidableEq

/-- Consumer state carried by a pass result. -/
def PassResult.state : PassResult → ConsumerSt
  | .synced st => st
  | .failed _ st => st
  | .fuelOut st => st

/-- The inner `while self._frame_index != self._buffer.frame_index` loop of
`_watch` (lines 81-91), fuel-indexed.  The `_running` flag stays true for
the whole pass (the stop contract is modelled separately below).  Each
iteration advances the cursor by one slot, so a pass over a buffer of
capacity `N` with in-range cursors runs at most `N` iterations; `watchPass`
supplies that fuel. -/
def watchPassAux (b : Buf) (proc : ℚ → Nat → Except String Unit) :
    Nat → ConsumerSt → PassResult
  | 0, st => if st.frameIndex = b.writeIndex then .synced st else .fuelOut st
  | fuel + 1, st =>
    if st.frameIndex = b.writeIndex then .synced st
    else
      match watchStep b proc st with
      | .cont st' => watchPassAux b proc fuel st'
      | .err e st' => .failed e st'

/-- One catch-up pass of `_watch` against a fixed buffer state. -/
def watchPass (b : Buf) (proc : ℚ → Nat → Except String Unit)
    (st : ConsumerSt) : PassResult :=
  watchPassAux b proc b.len st

/-- An infallible `process_frame` (the base class never raises). -/
def pureProc : ℚ → Nat → Except String Unit := fun _ _ => .ok ()

/-- The outer loop of `_watch` inside its `try`/`except` (lines 72-104),
driven by a list of buffer snapshots, one per outer iteration (each
iteration re-reads the shared buffer; the 5 ms sleep and the heartbeat log
are timing-only).  An exception escaping `process_frame` crosses both
loops, is logged naming the watcher (line 103: `'Exception caught in
{name}'`) together with the exception itself (line 104), and ends the
thread — the remaining snapshots are never consulted. -/
def watchRun (name : String) (proc : ℚ → Nat → Except String Unit) :
    List Buf → ConsumerSt → ConsumerSt × List String
  | [], st => (st, [])
  | b :: bs, st =>
    match watchPassAux b proc b.len st with
    | .synced st' => watchRun name proc bs st'
    | .failed e st' => (st', ["Exception caught in " ++ name, e])
    | .fuelOut st' => (st', [])

/-! ### Ring-distance arithmetic -/

/-! ### Buffer state after a burst of producer writes -/

/-! ### The catch-up pass processes exactly the slots between the cursors -/

/-- A `process_frame` that raises on frame payload 5 (a failing detector
variant). -/
def failProc5 : ℚ → Nat → Except String Unit :=
  fun _ f => if f = 5 then .error "boom" else .ok ()

/-! ## Watcher lifecycle: `run` / `stop` (framewatcher.py lines 60-70 and
106-114) -/

/-- Status of the lifecycle thread: still inside `_watch`, or returned. -/
inductive ThreadSt
  | alive
  | finished
  deriving DecidableEq

/-- Lifecycle-relevant watcher state: the `_running` flag, the `_thread`
slot (`none` models Python `None`, the value `__init__` leaves there), and
the count of frames processed so far by `_watch`. -/
structure LState where
  running : Bool
  thread : Option ThreadSt
  processed : Nat
  deriving DecidableEq

/-- State after `__init__` (lines 33-35): `_frame_index = 0` aside,
`_thread = None` and `_running = False`. -/
def lInit : LState := { running := false, thread := none, processed := 0 }

/-- `run()` (lines 60-70): create the thread, set `_running = True`, start
it. -/
def lRun (s : LState) : LState := { s with running := true, thread := some .alive }

/-- Steps the lifecycle thread can take, interleaved with the caller.
`process` is one frame handed to `process_frame` by `_watch`, possible only
while the thread is alive and `_running` is true (both loop conditions in
lines 80-81 test the flag).  `exitLoop` is the thread observing
`_running = false` at a loop boundary and returning from `_watch`. -/
inductive LStep : LState → LState → Prop
  | process (s : LState) (h1 : s.running = true) (h2 : s.thread = some .alive) :
      LStep s { s with processed := s.processed + 1 }
  | exitLoop (s : LState) (h1 : s.running = false) (h2 : s.thread = some .alive) :
      LStep s { s with thread := some .finished }

/-- Outcome of a `stop()` call. -/
inductive StopOutcome
  | returned (s : LState)
  | attrError (s : LState)
  deriving DecidableEq

/-- State carried by a stop outcome (the flag write on line 112 happens
before the join either way). -/
def StopOutcome.state : StopOutcome → LState
  | .returned s => s
  | .attrError s => s

/-- `stop()` (lines 106-114): set `_running = False`, then
`self._thread.join()`.  When `_thread` is `None` (never started) the
attribute access raises `AttributeError`; otherwise `join()` blocks until
the thread is `finished` — the trace-level theorems below express the
blocking part: the returned state is observed by the caller only once the
thread has exited. -/
def stopCall (s : LState) : StopOutcome :=
  let s1 := { s with running := false }
  match s1.thread with
  | none => .attrError s1
  | some _ => .returned s1

/-! ## The synchronous driver (`src/demo.py` main loop) -/

/-- A file written to disk by the demo (`cv2.imwrite` in `save_frame`,
`json.dump` in `save_metadata`). -/
inductive DiskWrite
  | image (fname : String) (img : Img)
  | metadata (fname : String) (events : List (Nat × List DetEvent))
  deriving DecidableEq

/-- True for image files (`cv2.imwrite` output). -/
def DiskWrite.isImage : DiskWrite → Bool
  | .image _ _ => true
  | .metadata _ _ => false

/-- The `save_frames` branch of the demo loop (demo.py lines 196-202):
when saving is enabled and `events is not None and len(events) > 0`, write
the raw frame and the annotated frame as images and record the events in
the in-memory `detection_events` dict (keyed by `framecount`).  The
`save_metadata_and_frame` call on line 199 is commented out in the source,
so no metadata file is written here. -/
def saveBranch (saveFrames : Bool) (framecount : Nat) (frame processedFrame : Img)
    (events : Option (List DetEvent)) :
    List DiskWrite × List (Nat × List DetEvent) :=
  match events with
  | some evs =>
    if saveFrames ∧ 0 < evs.length then
      ([.image ("frame_" ++ toString framecount ++ ".jpeg") frame,
        .image ("frame_" ++ toString framecount ++ ".bb.jpeg") processedFrame],
       [(framecount, evs)])
    else ([], [])
  | none => ([], [])

/-- The end-of-run metadata dump (demo.py lines 219-221): the `if
save_frames` body is `pass` — the `save_metadata(detection_events, ...)`
call is commented out — so nothing reaches disk. -/
def finalSave (saveFrames : Bool)
    (_detectionEvents : List (Nat × List DetEvent)) : List DiskWrite :=
  if saveFrames then [] else []

/-- State threaded through the demo main loop: `skip_counter`,
`framecount`, `lastframe_time`, the watcher object (whose FPS state
`process_frame` mutates), the in-memory `detection_events` dict as an
association list, and the cumulative list of disk writes. -/
structure DemoState where
  skipCounter : Nat
  framecount : Nat
  lastframeTime : ℚ
  watcher : PFState
  detectionEvents : List (Nat × List DetEvent)
  writes : List DiskWrite
  deriving DecidableEq

/-- One iteration of the demo main loop (demo.py lines 162-215) on input
`(ret, frame)` read from the source at wall-clock `now`.  The skip check
(lines 165-167) runs first: a discarded frame touches nothing but
`skip_counter`.  A kept frame with `ret` true is counted, resized
(`resizeOp` stands for the `cv2.resize` call), timed for the on-screen fps
text (display-only), run through `watcher.process_frame(now, frame)`,
handed to the external tracker (out of scope), and fed to the save branch.
The boolean result is the loop-continue flag: `ret == False` breaks (line
215); the `q`-key interrupt is an external signal left out of the model. -/
def demoIter (skipCount : Nat) (saveFrames : Bool) (ops : DrawOps)
    (custom : ℚ → Img → Img × Option (List DetEvent)) (resizeOp : Img → Img)
    (st : DemoState) (ret : Bool) (frame : Img) (now : ℚ) : DemoState × Bool :=
  let c := st.skipCounter + 1
  if c < skipCount then ({ st with skipCounter := c }, true)
  else
    let st := { st with skipCounter := 0 }
    if ret then
      let framecount := st.framecount + 1
      let frame := resizeOp frame
      let _tdText := now - st.lastframeTime
      let pf := processFrame ops custom now st.watcher now frame
      let sv := saveBranch saveFrames framecount frame pf.2.1 pf.2.2
      ({ st with framecount := framecount, lastframeTime := now, watcher := pf.1,
                 detectionEvents := st.detectionEvents ++ sv.2,
                 writes := st.writes ++ sv.1 }, true)
    else (st, false)

/-- The demo main loop over a finite source: a list of `(ret, frame, now)`
reads, stopping early when an iteration clears the continue flag. -/
def demoFeed (skipCount : Nat) (saveFrames : Bool) (ops : DrawOps)
    (custom : ℚ → Img → Img × Option (List DetEvent)) (resizeOp : Img → Img) :
    List (Bool × Img × ℚ) → DemoState → DemoState
  | [], st => st
  | (ret, frame, now) :: rest, st =>
    match demoIter skipCount saveFrames ops custom resizeOp st ret frame now with
    | (st', true) => demoFeed skipCount saveFrames ops custom resizeOp rest st'
    | (st', false) => st'

/-- Demo state at start of the run (demo.py lines 86-88): `framecount = 0`,
`skip_counter = 0`, `lastframe_time = now`, fresh watcher. -/
def initDemo (t0 : ℚ) (name : String) : DemoState :=
  { skipCounter := 0, framecount := 0, lastframeTime := t0,
    watcher := { name := name, prevTimestamp := t0, fpsState := initFps t0 },
    detectionEvents := [], writes := [] }

/-- Identity drawing primitives, for concrete evaluation. -/
def idOps : DrawOps := { circle := id, putText := fun _ _ img => img }

/-- A detector variant that reports one event on every frame, for concrete
evaluation of the save branch. -/
def evCustom : ℚ → Img → Img × Option (List DetEvent) :=
  fun _ frame => (frame, some ["detection"])

/-! ### Skip-counter cadence -/

/-! ### Persistence: what the save branch actually writes -/

/-! ## Aliasing: `process_frame` works on a copy (`np.array(frame)`) -/

/-- A heap of image arrays, indexed by reference (array identity). -/
structure PixHeap where
  cells : List Img
  deriving DecidableEq

/-- Dereference an array. -/
def PixHeap.read (h : PixHeap) (r : Nat) : Img := h.cells.getD r []

/-- In-place mutation of the array behind `r` (what `cv2.circle` and
`cv2.putText` do to their argument). -/
def PixHeap.write (h : PixHeap) (r : Nat) (img : Img) : PixHeap :=
  { cells := h.cells.set r img }

/-- Allocate a fresh array (what `np.array(frame)` does: a new buffer
holding a copy of the contents). -/
def PixHeap.alloc (h : PixHeap) (img : Img) : PixHeap × Nat :=
  ({ cells := h.cells ++ [img] }, h.cells.length)

/-- Heap-level embedding of `process_frame` (framewatcher.py lines
126-152): `frame = np.array(frame)` allocates a fresh copy; `cv2.circle`
and `cv2.putText` mutate their argument array in place and return the same
array (the source rebinds `processed_frame` to the returned array); the
base-class `_custom_processing` returns the same array.  The pixel effects
of the two drawing primitives are the parameters `circleFn`, `textFn`.
Returns the final heap and the reference handed back to the caller. -/
def processFrameHeap (circleFn textFn : Img → Img) (h : PixHeap) (input : Nat) :
    PixHeap × Nat :=
  let a := h.alloc (h.read input)
  let h1 := a.1
  let pf := a.2
  let h2 := h1.write pf (circleFn (h1.read pf))
  let h3 := h2.write pf (textFn (h2.read pf))
  (h3, pf)

/-! ## Theorems -/

lemma feedTimes_append (ts : List ℚ) (x : ℚ) (s : FpsState) :
    feedTimes (ts ++ [x]) s = (trackFps x (feedTimes ts s)).1 := by
  simp [feedTimes, List.foldl_append]

lemma fixedTimes_succ (t0 T : ℚ) (n : Nat) :
    fixedTimes t0 T (n + 1) = fixedTimes t0 T n ++ [t0 + T * ((n : ℚ) + 1)] := by
  simp [fixedTimes, List.range_succ]

/-- State reached by `n` fixed-interval frames: the counter cycles mod 20,
the window start time advances only at multiples of 20, and the fps value
is 0 before the first full window and `20 / (20 T)` afterwards. -/
lemma feed_fixed (t0 T : ℚ) (n : Nat) :
    feedTimes (fixedTimes t0 T n) (initFps t0) =
      { fpsCounter := n % 20,
        fpsTime := t0 + T * ((n - n % 20 : Nat) : ℚ),
        fps := if n < 20 then 0 else 20 / (20 * T) } := by
  induction n with
  | zero => simp [fixedTimes, feedTimes, initFps]
  | succ n ih =>
    rw [fixedTimes_succ, feedTimes_append, ih]
    by_cases h : n % 20 = 19
    · have hn : 19 ≤ n := by omega
      have h1 : (n + 1) % 20 = 0 := by omega
      have h2 : ¬ (n + 1 < 20) := by omega
      have hsub : ((n - n % 20 : Nat) : ℚ) = (n : ℚ) - 19 := by
        rw [h]
        push_cast [Nat.cast_sub hn]
        ring
      simp only [trackFps, FPS_FRAMES, h, h1, h2]
      norm_num
      have hT20 : T * ((n : ℚ) + 1) - T * (((n - 19 : Nat)) : ℚ) = 20 * T := by
        push_cast [Nat.cast_sub hn]
        ring
      rw [hT20]
    · have h1 : (n + 1) % 20 = n % 20 + 1 := by omega
      have h2 : (n + 1) - (n + 1) % 20 = n - n % 20 := by omega
      have h3 : ¬ (n % 20 + 1 = 20) := by omega
      have h4 : (n < 20) ↔ (n + 1 < 20) := by omega
      simp only [trackFps, FPS_FRAMES, h3, if_false]
      congr 1
      · omega
      · rw [h2]
      · by_cases h5 : n < 20
        · simp [h5, h4.mp h5]
        · simp [h5, (not_congr h4).mp h5]

/-- Feeding fewer than a window of frames, at arbitrary times, only
advances the counter: window start, fps value stay put. -/
lemma feed_small : ∀ (ts : List ℚ) (s : FpsState),
    s.fpsCounter + ts.length < FPS_FRAMES →
    feedTimes ts s = { s with fpsCounter := s.fpsCounter + ts.length } := by
  intro ts
  induction ts with
  | nil => intro s _; simp [feedTimes]
  | cons t ts ih =>
    intro s h
    have hne : ¬ (s.fpsCounter + 1 = FPS_FRAMES) := by
      simp only [List.length_cons] at h
      omega
    have hstep : feedTimes (t :: ts) s =
        feedTimes ts { s with fpsCounter := s.fpsCounter + 1 } := by
      simp [feedTimes, trackFps, hne]
    rw [hstep, ih _ (by simp only [List.length_cons] at h; simpa using by omega)]
    simp only [List.length_cons]
    congr 1
    omega

/-- C5: the rolling FPS counter over a window of `FPS_FRAMES = 20` processed
frames is recomputed as 20 / elapsed exactly on every 20th frame and retains
its previous value between windows; feeding `n` frames at fixed interval
`T > 0` yields fps `= 20 / (20·T)` from the 20th frame on (and the initial
`0` before), exactly in rational arithmetic. -/
theorem fps_window_exact (t0 T : ℚ) (_hT : 0 < T) (n : Nat) :
    ((feedTimes (fixedTimes t0 T n) (initFps t0)).fps
        = if n < 20 then 0 else 20 / (20 * T))
    ∧ (∀ (now : ℚ) (s : FpsState), s.fpsCounter + 1 ≠ FPS_FRAMES →
        (trackFps now s).1.fps = s.fps ∧ (trackFps now s).2 = s.fps)
    ∧ (∀ (now : ℚ) (s : FpsState), s.fpsCounter + 1 = FPS_FRAMES →
        (trackFps now s).1.fps = (FPS_FRAMES : ℚ) / (now - s.fpsTime)) := by
  refine ⟨?_, ?_, ?_⟩
  · rw [feed_fixed]
  · intro now s h
    simp [trackFps, h]
  · intro now s h
    simp [trackFps, h]

/-- Witness for `fps_window_exact` at `t0 = 0`, `T = 1`, `n = 20`. -/
theorem fps_window_exact_witness :
    ((feedTimes (fixedTimes 0 1 20) (initFps 0)).fps
        = if 20 < 20 then 0 else 20 / (20 * 1))
    ∧ (∀ (now : ℚ) (s : FpsState), s.fpsCounter + 1 ≠ FPS_FRAMES →
        (trackFps now s).1.fps = s.fps ∧ (trackFps now s).2 = s.fps)
    ∧ (∀ (now : ℚ) (s : FpsState), s.fpsCounter + 1 = FPS_FRAMES →
        (trackFps now s).1.fps = (FPS_FRAMES : ℚ) / (now - s.fpsTime)) :=
  fps_window_exact 0 1 (by norm_num) 20

/-- C10: from construction until the 20th processed frame the reported FPS
value is exactly 0 (feeding any fewer than 20 calls, at arbitrary times),
the counter starts at 0, and `_track_fps` preserves the invariant
`_fps_counter < FPS_FRAMES`. -/
theorem fps_initial_window_invariant :
    (∀ (t0 : ℚ) (ts : List ℚ), ts.length < FPS_FRAMES →
        (feedTimes ts (initFps t0)).fps = 0)
    ∧ (∀ t0 : ℚ, (initFps t0).fpsCounter = 0)
    ∧ (∀ (now : ℚ) (s : FpsState), s.fpsCounter < FPS_FRAMES →
        (trackFps now s).1.fpsCounter < FPS_FRAMES) := by
  refine ⟨?_, fun _ => rfl, ?_⟩
  · intro t0 ts h
    rw [feed_small ts (initFps t0) (by simpa [initFps] using h)]
    rfl
  · intro now s h
    by_cases hc : s.fpsCounter + 1 = FPS_FRAMES
    · simp [trackFps, hc, FPS_FRAMES]
    · simp only [trackFps, hc, if_false]
      omega

/-- Witness for `fps_initial_window_invariant` at concrete inputs. -/
theorem fps_initial_window_invariant_witness :
    (feedTimes [1, 2, 3] (initFps 0)).fps = 0
    ∧ (trackFps 5 { fpsCounter := 19, fpsTime := 0, fps := 0 }).1.fpsCounter
        < FPS_FRAMES := by
  constructor
  · exact fps_initial_window_invariant.1 0 [1, 2, 3] (by decide)
  · exact fps_initial_window_invariant.2.2 5 { fpsCounter := 19, fpsTime := 0, fps := 0 }
      (by decide)

/-- C6: for every timestamp and frame, `process_frame` returns a pair whose
event component is an actual (possibly empty) list, never an absent value;
the base-class `_custom_processing` returns the empty list. -/
theorem process_frame_events_never_absent (ops : DrawOps) (now : ℚ)
    (s : PFState) (timestamp : ℚ) (frame : Img) :
    ((processFrame ops baseCustom now s timestamp frame).2.2 = some [])
    ∧ (∀ (t : ℚ) (f : Img), baseCustom t f = (f, some [])) := by
  constructor
  · rfl
  · intro t f
    rfl

/-- Normal form of the cursor distance `(w + N - c) % N` for in-range
cursors. -/
lemma ring_dist_eq {N c w : Nat} (hc : c < N) (hw : w < N) :
    (w + N - c) % N = if c ≤ w then w - c else w + N - c := by
  rcases le_or_lt c w with h | h
  · have h1 : w + N - c = N + (w - c) := by omega
    rw [h1, Nat.add_mod_left, Nat.mod_eq_of_lt (by omega), if_pos h]
  · rw [Nat.mod_eq_of_lt (by omega), if_neg (by omega)]

/-- The distance is zero exactly at synchronization. -/
lemma ring_dist_zero {N c w : Nat} (hc : c < N) (hw : w < N) :
    (w + N - c) % N = 0 ↔ c = w := by
  rw [ring_dist_eq hc hw]
  split <;> omega

/-- A single cursor advance decreases the distance by one. -/
lemma ring_dist_succ {N c w : Nat} (hc : c < N) (hw : w < N) (hne : c ≠ w) :
    (w + N - (c + 1) % N) % N + 1 = (w + N - c) % N := by
  rcases Nat.lt_or_ge (c + 1) N with h | h
  · rw [Nat.mod_eq_of_lt h, ring_dist_eq h hw, ring_dist_eq hc hw]
    split <;> split <;> omega
  · have hcN : c + 1 = N := by omega
    rw [hcN, Nat.mod_self, ring_dist_eq (by omega) hw, ring_dist_eq hc hw]
    split <;> split <;> omega

lemma bufWrite_len (b : Buf) (t : ℚ) (f : Nat) : (bufWrite b t f).len = b.len := rfl

lemma bufWriteMany_len (b : Buf) (ws : List (ℚ × Nat)) :
    (bufWriteMany b ws).len = b.len := by
  induction ws generalizing b with
  | nil => rfl
  | cons w ws ih => simpa [bufWriteMany] using ih (bufWrite b w.1 w.2)

/-- The write cursor after a burst of writes. -/
lemma bufWriteMany_writeIndex (b : Buf) (ws : List (ℚ × Nat))
    (hN : 0 < b.len) (hw : b.writeIndex < b.len) :
    (bufWriteMany b ws).writeIndex = (b.writeIndex + ws.length) % b.len := by
  induction ws generalizing b with
  | nil => simpa [bufWriteMany] using (Nat.mod_eq_of_lt hw).symm
  | cons w ws ih =>
    have hstep : bufWriteMany b (w :: ws) = bufWriteMany (bufWrite b w.1 w.2) ws := rfl
    rw [hstep, ih (bufWrite b w.1 w.2) (by simpa [bufWrite] using hN)
        (by simpa [bufWrite] using Nat.mod_lt _ hN)]
    show ((b.writeIndex + 1) % b.len + ws.length) % b.len = _
    rw [Nat.mod_add_mod]
    congr 1
    simp only [List.length_cons]
    omega

/-- A burst of at most `N` writes, starting from write cursor `w < N`,
lands write `j` in slot `(w + 1 + j) % N`, and no later write of the burst
overwrites it. -/
lemma bufWriteMany_slots (b : Buf) (ws : List (ℚ × Nat))
    (hN : 0 < b.len) (hw : b.writeIndex < b.len) (hlen : ws.length ≤ b.len) :
    ∀ j (hj : j < ws.length),
      (bufWriteMany b ws).slots ((b.writeIndex + 1 + j) % b.len) = some ws[j] := by
  induction ws using List.reverseRecOn generalizing b with
  | nil => intro j hj; simp at hj
  | append_singleton l x ih =>
    intro j hj
    have hfold : bufWriteMany b (l ++ [x]) = bufWrite (bufWriteMany b l) x.1 x.2 := by
      simp [bufWriteMany, List.foldl_append]
    have hlenl : l.length ≤ b.len := by
      simp only [List.length_append, List.length_singleton] at hlen
      omega
    have hwidx : (bufWriteMany b l).writeIndex = (b.writeIndex + l.length) % b.len :=
      bufWriteMany_writeIndex b l hN hw
    have hlenb : (bufWriteMany b l).len = b.len := bufWriteMany_len b l
    have hidx : ((bufWriteMany b l).writeIndex + 1) % (bufWriteMany b l).len
        = (b.writeIndex + 1 + l.length) % b.len := by
      rw [hwidx, hlenb, Nat.mod_add_mod]
      congr 1
      omega
    rw [hfold]
    rcases Nat.lt_or_ge j l.length with hj' | hj'
    · -- an earlier write of the burst: the new write lands in a different slot
      have hne : (b.writeIndex + 1 + j) % b.len ≠ (b.writeIndex + 1 + l.length) % b.len := by
        intro heq
        have hmod : (b.writeIndex + 1 + j) ≡ (b.writeIndex + 1 + l.length) [MOD b.len] := heq
        have hjl : j ≡ l.length [MOD b.len] := by
          have h1 : (b.writeIndex + 1) + j ≡ (b.writeIndex + 1) + l.length [MOD b.len] := by
            simpa [Nat.add_assoc] using hmod
          exact Nat.ModEq.add_left_cancel' _ h1
        have hdvd : b.len ∣ l.length - j :=
          (Nat.modEq_iff_dvd' (Nat.le_of_lt hj')).mp hjl
        have hpos : 0 < l.length - j := by omega
        have := Nat.le_of_dvd hpos hdvd
        simp only [List.length_append, List.length_singleton] at hlen
        omega
      show (if (b.writeIndex + 1 + j) % b.len
              = ((bufWriteMany b l).writeIndex + 1) % (bufWriteMany b l).len
            then some (x.1, x.2)
            else (bufWriteMany b l).slots ((b.writeIndex + 1 + j) % b.len)) = _
      rw [hidx, if_neg hne, ih b hN hw hlenl j hj']
      have : (l ++ [x])[j] = l[j] := List.getElem_append_left hj'
      rw [this]
    · -- the freshly written slot
      have hjeq : j = l.length := by
        simp only [List.length_append, List.length_singleton] at hj
        omega
      subst hjeq
      show (if (b.writeIndex + 1 + l.length) % b.len
              = ((bufWriteMany b l).writeIndex + 1) % (bufWriteMany b l).len
            then some (x.1, x.2)
            else (bufWriteMany b l).slots ((b.writeIndex + 1 + l.length) % b.len)) = _
      rw [hidx, if_pos rfl]
      have hlen2 : l.length < (l ++ [x]).length := by simp
      have hget : (l ++ [x])[l.length] = x := by simp
      rw [hget]

lemma range_map_shift (g : Nat → ℚ × Nat) (n : Nat) :
    (List.range (n + 1)).map g = g 0 :: (List.range n).map (fun k => g (k + 1)) := by
  rw [List.range_succ_eq_map]
  simp [List.map_map, Function.comp_def]

lemma map_getD_range (l : List (ℚ × Nat)) :
    (List.range l.length).map (fun i => l.getD i (0, 0)) = l := by
  apply List.ext_getElem
  · simp
  · intro i h1 h2
    simp only [List.getElem_map, List.getElem_range]
    rw [List.getD_eq_getElem l (0, 0) h2]

/-- Core loop lemma: with an infallible `process_frame`, in-range cursors
and every slot between the local cursor (exclusive) and the write cursor
(inclusive) populated as `g`, a pass with enough fuel synchronizes and
appends exactly those slots, in slot order, to the processed log. -/
lemma passAux_synced (b : Buf) (proc : ℚ → Nat → Except String Unit)
    (hproc : ∀ t f, proc t f = .ok ()) :
    ∀ (fuel : Nat) (st : ConsumerSt) (g : Nat → ℚ × Nat),
      st.frameIndex < b.len → b.writeIndex < b.len →
      (b.writeIndex + b.len - st.frameIndex) % b.len ≤ fuel →
      (∀ k, k < (b.writeIndex + b.len - st.frameIndex) % b.len →
          b.slots ((st.frameIndex + 1 + k) % b.len) = some (g k)) →
      ∃ pt, watchPassAux b proc fuel st =
        .synced { frameIndex := b.writeIndex, prevTimestamp := pt,
                  processed := st.processed
                    ++ (List.range ((b.writeIndex + b.len - st.frameIndex) % b.len)).map g } := by
  intro fuel
  induction fuel with
  | zero =>
    intro st g hc hw hfuel _
    have hd : (b.writeIndex + b.len - st.frameIndex) % b.len = 0 := Nat.le_zero.mp hfuel
    have heq : st.frameIndex = b.writeIndex := (ring_dist_zero hc hw).mp hd
    refine ⟨st.prevTimestamp, ?_⟩
    rw [hd]
    simp only [watchPassAux, if_pos heq, List.range_zero, List.map_nil, List.append_nil]
    cases st
    simp_all
  | succ fuel ih =>
    intro st g hc hw hfuel hslots
    by_cases heq : st.frameIndex = b.writeIndex
    · have hd : (b.writeIndex + b.len - st.frameIndex) % b.len = 0 :=
        (ring_dist_zero hc hw).mpr heq
      refine ⟨st.prevTimestamp, ?_⟩
      rw [hd]
      simp only [watchPassAux, if_pos heq, List.range_zero, List.map_nil, List.append_nil]
      cases st
      simp_all
    · have hN : 0 < b.len := Nat.lt_of_le_of_lt (Nat.zero_le _) hc
      have hdpos : 0 < (b.writeIndex + b.len - st.frameIndex) % b.len := by
        rcases Nat.eq_zero_or_pos ((b.writeIndex + b.len - st.frameIndex) % b.len) with h0 | h0
        · exact absurd ((ring_dist_zero hc hw).mp h0) heq
        · exact h0
      have hslot0 : b.slots ((st.frameIndex + 1) % b.len) = some (g 0) := by
        have h := hslots 0 hdpos
        simpa using h
      have hstep : watchStep b proc st = .cont
          { frameIndex := (st.frameIndex + 1) % b.len, prevTimestamp := (g 0).1,
            processed := st.processed ++ [((g 0).1, (g 0).2)] } := by
        simp [watchStep, hslot0, hproc (g 0).1 (g 0).2]
      have hc' : (st.frameIndex + 1) % b.len < b.len := Nat.mod_lt _ hN
      have hdsucc := ring_dist_succ hc hw heq
      have hfuel' :
          (b.writeIndex + b.len - (st.frameIndex + 1) % b.len) % b.len ≤ fuel := by
        omega
      have hslots' : ∀ k,
          k < (b.writeIndex + b.len - (st.frameIndex + 1) % b.len) % b.len →
          b.slots (((st.frameIndex + 1) % b.len + 1 + k) % b.len)
            = some ((fun k => g (k + 1)) k) := by
        intro k hk
        have hidx : ((st.frameIndex + 1) % b.len + 1 + k) % b.len
            = (st.frameIndex + 1 + (k + 1)) % b.len := by
          rw [Nat.add_assoc, Nat.mod_add_mod]
          congr 1
          omega
        rw [hidx]
        exact hslots (k + 1) (by omega)
      obtain ⟨pt, hrec⟩ := ih
        { frameIndex := (st.frameIndex + 1) % b.len, prevTimestamp := (g 0).1,
          processed := st.processed ++ [((g 0).1, (g 0).2)] }
        (fun k => g (k + 1)) hc' hw hfuel' hslots'
      refine ⟨pt, ?_⟩
      simp only [watchPassAux, if_neg heq, hstep]
      rw [hrec]
      have hd1 : (b.writeIndex + b.len - st.frameIndex) % b.len
          = ((b.writeIndex + b.len - (st.frameIndex + 1) % b.len) % b.len) + 1 := by
        omega
      have hpr : (st.processed ++ [((g 0).1, (g 0).2)])
            ++ (List.range ((b.writeIndex + b.len - (st.frameIndex + 1) % b.len) % b.len)).map
                (fun k => g (k + 1))
          = st.processed
            ++ (List.range ((b.writeIndex + b.len - st.frameIndex) % b.len)).map g := by
        rw [hd1, range_map_shift, List.append_assoc]
        rfl
      rw [hpr]

lemma map_getD_of_length (l : List (ℚ × Nat)) (m : Nat) (h : l.length = m) :
    (List.range m).map (fun i => l.getD i (0, 0)) = l := by
  subst h
  exact map_getD_range l

/-- C1: on a FrameBuffer of capacity `N`, a consumer starting synchronized
at any valid cursor `w0` and running one catch-up pass of `_watch` after a
burst of `W` producer writes processes exactly the newest `W mod N` writes
— all of them, each exactly once, in producer-write order, when `W < N` —
skips only the oldest excess writes otherwise, and always ends with its
local cursor equal to the write cursor, returning normally (no deadlock, no
fuel exhaustion, no error). -/
theorem watch_catchup_processes_writes
    (N w0 : Nat) (slots0 : Nat → Option (ℚ × Nat)) (ws : List (ℚ × Nat))
    (st : ConsumerSt) (hN : 0 < N) (hw : w0 < N) (hsync : st.frameIndex = w0) :
    ∃ st', watchPass (bufWriteMany ⟨N, slots0, w0⟩ ws) pureProc st = .synced st'
      ∧ st'.frameIndex = (bufWriteMany ⟨N, slots0, w0⟩ ws).writeIndex
      ∧ st'.processed = st.processed ++ ws.drop (ws.length - ws.length % N)
      ∧ (ws.length < N → st'.processed = st.processed ++ ws) := by
  have hmN : ws.length % N < N := Nat.mod_lt _ hN
  have hfold : bufWriteMany (⟨N, slots0, w0⟩ : Buf) ws
      = bufWriteMany (bufWriteMany ⟨N, slots0, w0⟩ (ws.take (ws.length - ws.length % N)))
          (ws.drop (ws.length - ws.length % N)) := by
    simp only [bufWriteMany]
    rw [← List.foldl_append, List.take_append_drop]
  have hl1 : (ws.take (ws.length - ws.length % N)).length = ws.length - ws.length % N := by
    simp [List.length_take]
  have hl2 : (ws.drop (ws.length - ws.length % N)).length = ws.length % N := by
    simp only [List.length_drop]
    exact Nat.sub_sub_self (Nat.mod_le _ _)
  have hb1len : (bufWriteMany ⟨N, slots0, w0⟩ (ws.take (ws.length - ws.length % N))).len = N :=
    bufWriteMany_len _ _
  have hb1w : (bufWriteMany ⟨N, slots0, w0⟩ (ws.take (ws.length - ws.length % N))).writeIndex
      = w0 := by
    rw [bufWriteMany_writeIndex _ _ hN hw, hl1]
    obtain ⟨k, hk⟩ : N ∣ ws.length - ws.length % N := by
      have hdm := Nat.div_add_mod ws.length N
      exact ⟨ws.length / N, by omega⟩
    show (w0 + (ws.length - ws.length % N)) % N = w0
    rw [hk, Nat.add_mul_mod_self_left, Nat.mod_eq_of_lt hw]
  have hb2len : (bufWriteMany (bufWriteMany ⟨N, slots0, w0⟩
      (ws.take (ws.length - ws.length % N))) (ws.drop (ws.length - ws.length % N))).len = N := by
    rw [bufWriteMany_len, hb1len]
  have hb2w : (bufWriteMany (bufWriteMany ⟨N, slots0, w0⟩
      (ws.take (ws.length - ws.length % N))) (ws.drop (ws.length - ws.length % N))).writeIndex
      = (w0 + ws.length % N) % N := by
    rw [bufWriteMany_writeIndex _ _ (by rw [hb1len]; exact hN)
        (by rw [hb1len, hb1w]; exact hw), hb1len, hb1w, hl2]
  have hslots2 : ∀ j, j < ws.length % N →
      (bufWriteMany (bufWriteMany ⟨N, slots0, w0⟩ (ws.take (ws.length - ws.length % N)))
          (ws.drop (ws.length - ws.length % N))).slots ((w0 + 1 + j) % N)
        = some ((ws.drop (ws.length - ws.length % N)).getD j (0, 0)) := by
    intro j hj
    have hj2 : j < (ws.drop (ws.length - ws.length % N)).length := by rw [hl2]; exact hj
    have h := bufWriteMany_slots (bufWriteMany ⟨N, slots0, w0⟩
        (ws.take (ws.length - ws.length % N))) (ws.drop (ws.length - ws.length % N))
        (by rw [hb1len]; exact hN) (by rw [hb1len, hb1w]; exact hw)
        (by rw [hb1len, hl2]; omega) j hj2
    rw [hb1len, hb1w] at h
    rw [h, List.getD_eq_getElem _ (0, 0) hj2]
  have hdist : ((bufWriteMany (bufWriteMany ⟨N, slots0, w0⟩
        (ws.take (ws.length - ws.length % N))) (ws.drop (ws.length - ws.length % N))).writeIndex
      + (bufWriteMany (bufWriteMany ⟨N, slots0, w0⟩
        (ws.take (ws.length - ws.length % N))) (ws.drop (ws.length - ws.length % N))).len
      - st.frameIndex)
      % (bufWriteMany (bufWriteMany ⟨N, slots0, w0⟩
        (ws.take (ws.length - ws.length % N))) (ws.drop (ws.length - ws.length % N))).len
      = ws.length % N := by
    rw [hb2len, hb2w, hsync]
    rcases Nat.lt_or_ge (w0 + ws.length % N) N with hlt | hge
    · rw [Nat.mod_eq_of_lt hlt]
      have h1 : w0 + ws.length % N + N - w0 = N + ws.length % N := by omega
      rw [h1, Nat.add_mod_left, Nat.mod_eq_of_lt hmN]
    · have h1 : (w0 + ws.length % N) % N = w0 + ws.length % N - N := by
        rw [Nat.mod_eq_sub_mod hge, Nat.mod_eq_of_lt (by omega)]
      rw [h1]
      have h2 : w0 + ws.length % N - N + N - w0 = ws.length % N := by omega
      rw [h2, Nat.mod_eq_of_lt hmN]
  obtain ⟨pt, hpass⟩ := passAux_synced
    (bufWriteMany (bufWriteMany ⟨N, slots0, w0⟩ (ws.take (ws.length - ws.length % N)))
      (ws.drop (ws.length - ws.length % N)))
    pureProc (fun _ _ => rfl)
    (bufWriteMany (bufWriteMany ⟨N, slots0, w0⟩ (ws.take (ws.length - ws.length % N)))
      (ws.drop (ws.length - ws.length % N))).len
    st (fun k => (ws.drop (ws.length - ws.length % N)).getD k (0, 0))
    (by rw [hb2len, hsync]; exact hw)
    (by rw [hb2len, hb2w]; exact Nat.mod_lt _ hN)
    (by rw [hdist, hb2len]; omega)
    (by
      intro k hk
      rw [hdist] at hk
      have := hslots2 k hk
      rw [hb2len, hsync]
      exact this)
  rw [hdist] at hpass
  have hmap : (List.range (ws.length % N)).map
      (fun k => (ws.drop (ws.length - ws.length % N)).getD k (0, 0))
      = ws.drop (ws.length - ws.length % N) := map_getD_of_length _ _ hl2
  refine ⟨ConsumerSt.mk
      (Buf.writeIndex (bufWriteMany (bufWriteMany (Buf.mk N slots0 w0)
        (ws.take (ws.length - ws.length % N))) (ws.drop (ws.length - ws.length % N))))
      pt
      (st.processed ++ (List.range (ws.length % N)).map
        (fun k => (ws.drop (ws.length - ws.length % N)).getD k (0, 0))),
    ?_, ?_, ?_, ?_⟩
  · rw [hfold]
    exact hpass
  · rw [hfold]
  · show st.processed ++ (List.range (ws.length % N)).map
        (fun k => (ws.drop (ws.length - ws.length % N)).getD k (0, 0))
      = st.processed ++ ws.drop (ws.length - ws.length % N)
    rw [hmap]
  · intro hlen
    have hmod : ws.length % N = ws.length := Nat.mod_eq_of_lt hlen
    have hdrop : ws.drop (ws.length - ws.length % N) = ws := by
      rw [hmod]
      simp
    show st.processed ++ (List.range (ws.length % N)).map
        (fun k => (ws.drop (ws.length - ws.length % N)).getD k (0, 0))
      = st.processed ++ ws
    rw [hmap, hdrop]

/-- Witness for `watch_catchup_processes_writes`: capacity 3, consumer
synchronized at cursor 0, burst of 5 writes — the newest 5 mod 3 = 2 writes
are processed, in order. -/
theorem watch_catchup_processes_writes_witness :
    ∃ st', watchPass (bufWriteMany ⟨3, fun _ => none, 0⟩
        [(1, 10), (2, 11), (3, 12), (4, 13), (5, 14)]) pureProc (ConsumerSt.mk 0 0 [])
        = .synced st'
      ∧ st'.frameIndex = (bufWriteMany ⟨3, fun _ => none, 0⟩
          [(1, 10), (2, 11), (3, 12), (4, 13), (5, 14)]).writeIndex
      ∧ st'.processed = (ConsumerSt.mk 0 0 []).processed
          ++ ([(1, 10), (2, 11), (3, 12), (4, 13), (5, 14)] : List (ℚ × Nat)).drop
            (([(1, 10), (2, 11), (3, 12), (4, 13), (5, 14)] : List (ℚ × Nat)).length
              - ([(1, 10), (2, 11), (3, 12), (4, 13), (5, 14)] : List (ℚ × Nat)).length % 3)
      ∧ (([(1, 10), (2, 11), (3, 12), (4, 13), (5, 14)] : List (ℚ × Nat)).length < 3 →
          st'.processed = (ConsumerSt.mk 0 0 []).processed
            ++ [(1, 10), (2, 11), (3, 12), (4, 13), (5, 14)]) :=
  watch_catchup_processes_writes 3 0 (fun _ => none)
    [(1, 10), (2, 11), (3, 12), (4, 13), (5, 14)] (ConsumerSt.mk 0 0 [])
    (by decide) (by decide) rfl

/-- C7: per inner-loop step the consumer's local cursor advances by exactly
one mod the buffer capacity — and does not move at all while it equals the
write cursor; an empty slot is skipped without error, changing nothing but
the cursor; only a successfully processed non-empty slot records its
timestamp as `_prev_timestamp` (and is appended to the processed log). -/
theorem watch_step_invariant (b : Buf) (proc : ℚ → Nat → Except String Unit)
    (st : ConsumerSt) :
    (∀ fuel, st.frameIndex = b.writeIndex → watchPassAux b proc fuel st = .synced st)
    ∧ ((watchStep b proc st).state).frameIndex = (st.frameIndex + 1) % b.len
    ∧ (b.slots ((st.frameIndex + 1) % b.len) = none →
        watchStep b proc st = .cont { st with frameIndex := (st.frameIndex + 1) % b.len })
    ∧ (∀ (t : ℚ) (f : Nat),
        b.slots ((st.frameIndex + 1) % b.len) = some (t, f) → proc t f = .ok () →
        watchStep b proc st = .cont
          { st with frameIndex := (st.frameIndex + 1) % b.len,
                    prevTimestamp := t, processed := st.processed ++ [(t, f)] }) := by
  refine ⟨?_, ?_, ?_, ?_⟩
  · intro fuel h
    cases fuel <;> simp [watchPassAux, h]
  · cases hslot : b.slots ((st.frameIndex + 1) % b.len) with
    | none => simp [watchStep, hslot, StepRes.state]
    | some tf =>
      obtain ⟨t, f⟩ := tf
      cases hp : proc t f with
      | error e => simp [watchStep, hslot, hp, StepRes.state]
      | ok u => simp [watchStep, hslot, hp, StepRes.state]
  · intro hnone
    simp [watchStep, hnone]
  · intro t f hsome hok
    simp [watchStep, hsome, hok]

/-- Witness for `watch_step_invariant`: a populated slot is processed with
its timestamp recorded; a synchronized consumer does not move. -/
theorem watch_step_invariant_witness :
    watchStep ⟨3, (fun i => if i = 1 then some ((7 : ℚ), 42) else none), 2⟩ pureProc
        (ConsumerSt.mk 0 0 [])
      = .cont (ConsumerSt.mk 1 7 [(7, 42)])
    ∧ watchPassAux ⟨3, (fun i => if i = 1 then some ((7 : ℚ), 42) else none), 2⟩ pureProc 3
        (ConsumerSt.mk 2 0 [])
      = .synced (ConsumerSt.mk 2 0 []) := by
  constructor
  · exact (watch_step_invariant ⟨3, (fun i => if i = 1 then some ((7 : ℚ), 42) else none), 2⟩
      pureProc (ConsumerSt.mk 0 0 [])).2.2.2 7 42 (by decide) rfl
  · exact (watch_step_invariant ⟨3, (fun i => if i = 1 then some ((7 : ℚ), 42) else none), 2⟩
      pureProc (ConsumerSt.mk 2 0 [])).1 3 rfl

/-- Every frame a pass adds to the processed log was accepted by
`process_frame`; a frame on which it raised is never logged. -/
lemma passAux_processed_ok (b : Buf) (proc : ℚ → Nat → Except String Unit) :
    ∀ (fuel : Nat) (st : ConsumerSt), ∃ done,
      ((watchPassAux b proc fuel st).state).processed = st.processed ++ done
      ∧ ∀ p ∈ done, proc p.1 p.2 = .ok () := by
  intro fuel
  induction fuel with
  | zero =>
    intro st
    refine ⟨[], ?_, by simp⟩
    by_cases h : st.frameIndex = b.writeIndex <;>
      simp [watchPassAux, h, PassResult.state]
  | succ fuel ih =>
    intro st
    by_cases h : st.frameIndex = b.writeIndex
    · exact ⟨[], by simp [watchPassAux, h, PassResult.state], by simp⟩
    · cases hslot : b.slots ((st.frameIndex + 1) % b.len) with
      | none =>
        obtain ⟨done, h1, h2⟩ := ih { st with frameIndex := (st.frameIndex + 1) % b.len }
        refine ⟨done, ?_, h2⟩
        simp only [watchPassAux, if_neg h, watchStep, hslot]
        exact h1
      | some tf =>
        obtain ⟨t, f⟩ := tf
        cases hp : proc t f with
        | error e =>
          refine ⟨[], ?_, by simp⟩
          simp [watchPassAux, if_neg h, watchStep, hslot, hp, PassResult.state]
        | ok u =>
          cases u
          obtain ⟨done, h1, h2⟩ := ih
            { st with frameIndex := (st.frameIndex + 1) % b.len,
                      prevTimestamp := t, processed := st.processed ++ [(t, f)] }
          refine ⟨(t, f) :: done, ?_, ?_⟩
          · simp only [watchPassAux, if_neg h, watchStep, hslot, hp]
            rw [h1]
            simp
          · intro p hmem
            rcases List.mem_cons.mp hmem with rfl | hmem'
            · exact hp
            · exact h2 p hmem'

/-- C4: an error raised inside the per-frame contract while the watcher
catches up crosses both loops of `_watch`, is logged naming the watcher
together with the exception, and terminates the run — later buffer states
(`bs`) are never consulted, so no later frame is ever delivered to this
watcher instance; every frame in the final processed log was accepted by
`process_frame`, so the failed frame was neither logged as processed nor
retried. -/
theorem watch_failure_fail_stop (name : String) (proc : ℚ → Nat → Except String Unit)
    (b : Buf) (bs : List Buf) (st : ConsumerSt) (e : String) (st' : ConsumerSt)
    (hfail : watchPassAux b proc b.len st = .failed e st') :
    watchRun name proc (b :: bs) st = (st', ["Exception caught in " ++ name, e])
    ∧ ∃ done, st'.processed = st.processed ++ done
        ∧ ∀ p ∈ done, proc p.1 p.2 = .ok () := by
  constructor
  · simp [watchRun, hfail]
  · obtain ⟨done, h1, h2⟩ := passAux_processed_ok b proc b.len st
    rw [hfail] at h1
    exact ⟨done, h1, h2⟩

/-- Witness for `watch_failure_fail_stop`: frame 5 raises; the run logs the
watcher name and the error and delivers nothing further. -/
theorem watch_failure_fail_stop_witness :
    watchRun "MotionWatcher" failProc5
        [⟨2, (fun i => if i = 1 then some ((0 : ℚ), 5) else none), 1⟩]
        (ConsumerSt.mk 0 0 [])
      = (ConsumerSt.mk 1 0 [], ["Exception caught in " ++ "MotionWatcher", "boom"])
    ∧ ∃ done, (ConsumerSt.mk 1 0 []).processed = (ConsumerSt.mk 0 0 []).processed ++ done
        ∧ ∀ p ∈ done, failProc5 p.1 p.2 = .ok () :=
  watch_failure_fail_stop "MotionWatcher" failProc5
    ⟨2, (fun i => if i = 1 then some ((0 : ℚ), 5) else none), 1⟩ []
    (ConsumerSt.mk 0 0 []) "boom" (ConsumerSt.mk 1 0 []) (by decide)

/-- C3 counterexample: a freshly constructed watcher is already stopped
(`_running = false`), yet `stop()` on it raises `AttributeError` because
`__init__` left `_thread = None` and `stop()` unconditionally calls
`self._thread.join()` — contradicting the claim that calling `stop()` on an
already-stopped watcher is error-free. -/
theorem stop_on_unstarted_raises :
    lInit.running = false
    ∧ stopCall lInit = .attrError { running := false, thread := none, processed := 0 } := by
  constructor
  · rfl
  · rfl

/-- C3 amended: `stop()` always clears the `_running` flag; on a watcher
whose thread exists it returns without error (in particular a second
`stop()` after a completed one); once the join has returned — i.e. the
thread is `finished` while `_running = false` — no lifecycle step is
possible at all, so the processed-frame count never changes after `stop()`
returns; and a running thread that sees `_running = false` can only exit,
so the blocking join terminates.  Only a never-started watcher (thread
`None`) makes `stop()` raise. -/
theorem stop_contract :
    (∀ s : LState, ((stopCall s).state).running = false)
    ∧ (∀ (s : LState) (t : ThreadSt), s.thread = some t →
        stopCall s = .returned { s with running := false })
    ∧ (∀ s s' : LState, s.running = false → s.thread = some .finished →
        Relation.ReflTransGen LStep s s' → s' = s)
    ∧ (∀ s : LState, s.running = false → s.thread = some .alive →
        (LStep s { s with thread := some .finished }
          ∧ ∀ s', LStep s s' → s' = { s with thread := some .finished })) := by
  refine ⟨?_, ?_, ?_, ?_⟩
  · intro s
    cases hth : s.thread <;> simp [stopCall, hth, StopOutcome.state]
  · intro s t hth
    simp [stopCall, hth]
  · intro s s' hrun hth hsteps
    induction hsteps with
    | refl => rfl
    | tail _ hstep ih =>
      rw [ih] at hstep
      cases hstep with
      | process h1 h2 => simp [hrun] at h1
      | exitLoop h1 h2 => simp [hth] at h2
  · intro s hrun hth
    constructor
    · exact LStep.exitLoop s hrun hth
    · intro s' hstep
      cases hstep with
      | process h1 h2 => simp [hrun] at h1
      | exitLoop h1 h2 => rfl

/-- Witness for `stop_contract` at concrete states: a started-and-finished
watcher stops cleanly; a stopped-and-joined watcher admits no further step;
a live thread under a cleared flag exits. -/
theorem stop_contract_witness :
    stopCall { running := true, thread := some .finished, processed := 3 }
      = .returned { running := false, thread := some .finished, processed := 3 }
    ∧ (∀ s', Relation.ReflTransGen LStep
        { running := false, thread := some .finished, processed := 3 } s' →
        s' = { running := false, thread := some .finished, processed := 3 })
    ∧ LStep { running := false, thread := some .alive, processed := 0 }
        { running := false, thread := some .finished, processed := 0 } := by
  refine ⟨?_, ?_, ?_⟩
  · exact stop_contract.2.1 { running := true, thread := some .finished, processed := 3 }
      .finished rfl
  · intro s' h
    exact stop_contract.2.2.1 _ s' rfl rfl h
  · exact (stop_contract.2.2.2 { running := false, thread := some .alive, processed := 0 }
      rfl rfl).1

lemma succ_mod_div_lt {S n : Nat} (hS : 0 < S) (h : n % S + 1 < S) :
    (n + 1) % S = n % S + 1 ∧ (n + 1) / S = n / S := by
  have hdm := Nat.div_add_mod n S
  constructor
  · rw [show n + 1 = S * (n / S) + (n % S + 1) by omega, Nat.mul_add_mod,
      Nat.mod_eq_of_lt h]
  · rw [show n + 1 = S * (n / S) + (n % S + 1) by omega, Nat.mul_add_div hS,
      Nat.div_eq_of_lt h]
    omega

lemma succ_mod_div_eq {S n : Nat} (hS : 0 < S) (h : n % S + 1 = S) :
    (n + 1) % S = 0 ∧ (n + 1) / S = n / S + 1 := by
  have hdm := Nat.div_add_mod n S
  have hform : n + 1 = S * (n / S + 1) := by
    rw [Nat.mul_succ]
    omega
  constructor
  · rw [hform, Nat.mul_mod_right]
  · rw [hform, Nat.mul_div_cancel_left _ hS]

/-- A discarded frame (skip check at demo.py lines 165-167 fires) changes
nothing but the skip counter: framecount, FPS state, event history, disk
writes are untouched, and the loop continues. -/
lemma demoIter_skip (S : Nat) (saveFrames : Bool) (ops : DrawOps)
    (custom : ℚ → Img → Img × Option (List DetEvent)) (resizeOp : Img → Img)
    (st : DemoState) (ret : Bool) (frame : Img) (now : ℚ)
    (hc : st.skipCounter + 1 < S) :
    demoIter S saveFrames ops custom resizeOp st ret frame now
      = ({ st with skipCounter := st.skipCounter + 1 }, true) := by
  simp [demoIter, hc]

/-- A kept frame with a successful read: the counter resets, the frame is
counted and runs through the contract and the save branch. -/
lemma demoIter_kept (S : Nat) (saveFrames : Bool) (ops : DrawOps)
    (custom : ℚ → Img → Img × Option (List DetEvent)) (resizeOp : Img → Img)
    (st : DemoState) (frame : Img) (now : ℚ) (hc : ¬ (st.skipCounter + 1 < S)) :
    demoIter S saveFrames ops custom resizeOp st true frame now
      = ({ st with
            skipCounter := 0,
            framecount := st.framecount + 1,
            lastframeTime := now,
            watcher := (processFrame ops custom now st.watcher now (resizeOp frame)).1,
            detectionEvents := st.detectionEvents
              ++ (saveBranch saveFrames (st.framecount + 1) (resizeOp frame)
                   (processFrame ops custom now st.watcher now (resizeOp frame)).2.1
                   (processFrame ops custom now st.watcher now (resizeOp frame)).2.2).2,
            writes := st.writes
              ++ (saveBranch saveFrames (st.framecount + 1) (resizeOp frame)
                   (processFrame ops custom now st.watcher now (resizeOp frame)).2.1
                   (processFrame ops custom now st.watcher now (resizeOp frame)).2.2).1 },
         true) := by
  simp [demoIter, hc]

/-- Skip-counter/framecount invariant of the demo loop over an all-good
source: after `n` earlier reads the counter is `n mod S` and the
framecount — the number of frames that reached the per-frame contract — is
`n / S`. -/
lemma demoFeed_cadence (S : Nat) (hS : 1 ≤ S) (saveFrames : Bool) (ops : DrawOps)
    (custom : ℚ → Img → Img × Option (List DetEvent)) (resizeOp : Img → Img) :
    ∀ (inputs : List (Img × ℚ)) (n : Nat) (st : DemoState),
      st.skipCounter = n % S → st.framecount = n / S →
      (demoFeed S saveFrames ops custom resizeOp
          (inputs.map (fun p => (true, p.1, p.2))) st).skipCounter
        = (n + inputs.length) % S
      ∧ (demoFeed S saveFrames ops custom resizeOp
          (inputs.map (fun p => (true, p.1, p.2))) st).framecount
        = (n + inputs.length) / S := by
  intro inputs
  induction inputs with
  | nil =>
    intro n st h1 h2
    refine ⟨?_, ?_⟩ <;> simp [demoFeed, h1, h2]
  | cons p rest ih =>
    intro n st h1 h2
    have hSpos : 0 < S := by omega
    by_cases hc : st.skipCounter + 1 < S
    · have hlt := succ_mod_div_lt hSpos (by rw [← h1]; exact hc)
      have hstep := demoIter_skip S saveFrames ops custom resizeOp st true p.1 p.2 hc
      have hsk : ((demoIter S saveFrames ops custom resizeOp st true p.1 p.2).1).skipCounter
          = st.skipCounter + 1 := by rw [hstep]
      have hfc : ((demoIter S saveFrames ops custom resizeOp st true p.1 p.2).1).framecount
          = st.framecount := by rw [hstep]
      have hrec := ih (n + 1) (demoIter S saveFrames ops custom resizeOp st true p.1 p.2).1
        (by rw [hsk, h1, hlt.1]) (by rw [hfc, h2, hlt.2])
      have hgoal : demoFeed S saveFrames ops custom resizeOp
          ((p :: rest).map (fun p => (true, p.1, p.2))) st
          = demoFeed S saveFrames ops custom resizeOp
              (rest.map (fun p => (true, p.1, p.2)))
              (demoIter S saveFrames ops custom resizeOp st true p.1 p.2).1 := by
        simp only [List.map_cons, demoFeed, hstep]
      rw [hgoal]
      refine ⟨?_, ?_⟩
      · rw [hrec.1]
        simp only [List.length_cons]
        congr 1
        omega
      · rw [hrec.2]
        simp only [List.length_cons]
        congr 1
        omega
    · have hltS : st.skipCounter < S := by
        rw [h1]
        exact Nat.mod_lt _ hSpos
      have hmodS : n % S + 1 = S := by
        rw [← h1]
        omega
      have heq := succ_mod_div_eq hSpos hmodS
      have hstep := demoIter_kept S saveFrames ops custom resizeOp st p.1 p.2 hc
      have hsk : ((demoIter S saveFrames ops custom resizeOp st true p.1 p.2).1).skipCounter
          = 0 := by rw [hstep]
      have hfc : ((demoIter S saveFrames ops custom resizeOp st true p.1 p.2).1).framecount
          = st.framecount + 1 := by rw [hstep]
      have hrec := ih (n + 1) (demoIter S saveFrames ops custom resizeOp st true p.1 p.2).1
        (by rw [hsk, heq.1]) (by rw [hfc, h2, heq.2])
      have hgoal : demoFeed S saveFrames ops custom resizeOp
          ((p :: rest).map (fun p => (true, p.1, p.2))) st
          = demoFeed S saveFrames ops custom resizeOp
              (rest.map (fun p => (true, p.1, p.2)))
              (demoIter S saveFrames ops custom resizeOp st true p.1 p.2).1 := by
        simp only [List.map_cons, demoFeed, hstep]
      rw [hgoal]
      refine ⟨?_, ?_⟩
      · rw [hrec.1]
        simp only [List.length_cons]
        congr 1
        omega
      · rw [hrec.2]
        simp only [List.length_cons]
        congr 1
        omega

/-- C2 counterexample: with `skip_count = 1`, the strict `<` comparison
`skip_counter < skip_count` never fires (the counter is already 1 when
compared), so of 2 consecutively fed frames both — not exactly 1 of every
2 — reach `process_frame`: the claimed cadence of 1 kept frame per
`skip_count + 1` fed frames is false for the code. -/
theorem sync_skip_cadence_cex :
    (demoFeed 1 false idOps baseCustom id
        [(true, [[0]], 1), (true, [[0]], 2)] (initDemo 0 "demo")).framecount = 2
    ∧ ¬ ((demoFeed 1 false idOps baseCustom id
        [(true, [[0]], 1), (true, [[0]], 2)] (initDemo 0 "demo")).framecount = 1) := by
  constructor
  · decide
  · decide

/-- C2 corrected: with `skip_count = S ≥ 1` in synchronous mode, exactly 1
of every `S` (not `S + 1`) consecutively fed frames reaches the per-frame
contract — over any all-good source of `n` reads, `n / S` frames are
processed — and each of the `S - 1` discarded frames changes nothing but
the skip counter: FPS state, telemetry, event history and disk writes are
untouched, because the skip check precedes all of them. -/
theorem sync_skip_cadence (S : Nat) (hS : 1 ≤ S) (saveFrames : Bool) (ops : DrawOps)
    (custom : ℚ → Img → Img × Option (List DetEvent)) (resizeOp : Img → Img) :
    (∀ (st : DemoState) (ret : Bool) (frame : Img) (now : ℚ),
        st.skipCounter + 1 < S →
        demoIter S saveFrames ops custom resizeOp st ret frame now
          = ({ st with skipCounter := st.skipCounter + 1 }, true))
    ∧ (∀ (inputs : List (Img × ℚ)) (t0 : ℚ) (name : String),
        (demoFeed S saveFrames ops custom resizeOp
            (inputs.map (fun p => (true, p.1, p.2))) (initDemo t0 name)).framecount
          = inputs.length / S) := by
  constructor
  · intro st ret frame now hc
    exact demoIter_skip S saveFrames ops custom resizeOp st ret frame now hc
  · intro inputs t0 name
    have h := (demoFeed_cadence S hS saveFrames ops custom resizeOp inputs 0
      (initDemo t0 name) (by simp [initDemo]) (by simp [initDemo])).2
    simpa using h

/-- Witness for `sync_skip_cadence` at `S = 2` with a 3-frame source: one
frame is discarded (counter only), `3 / 2 = 1` frame is processed. -/
theorem sync_skip_cadence_witness :
    demoIter 2 false idOps baseCustom id (initDemo 0 "demo") true [[5]] 1
        = ({ initDemo 0 "demo" with skipCounter := 1 }, true)
    ∧ (demoFeed 2 false idOps baseCustom id
        (([(([[1]] : Img), (1 : ℚ)), ([[2]], 2), ([[3]], 3)]).map
          (fun p => (true, p.1, p.2)))
        (initDemo 0 "demo")).framecount
      = ([(([[1]] : Img), (1 : ℚ)), ([[2]], 2), ([[3]], 3)]).length / 2 := by
  constructor
  · exact (sync_skip_cadence 2 (by decide) false idOps baseCustom id).1
      (initDemo 0 "demo") true [[5]] 1 (by decide)
  · exact (sync_skip_cadence 2 (by decide) false idOps baseCustom id).2
      [([[1]], 1), ([[2]], 2), ([[3]], 3)] 0 "demo"

/-- Every file the save branch writes is an image: no metadata file is ever
among its disk writes. -/
lemma saveBranch_writes_images (sf : Bool) (fc : Nat) (f pf : Img)
    (evs : Option (List DetEvent)) :
    ((saveBranch sf fc f pf evs).1).all DiskWrite.isImage = true := by
  cases evs with
  | none => rfl
  | some l =>
    by_cases h : sf ∧ 0 < l.length
    · simp [saveBranch, h, DiskWrite.isImage]
    · simp [saveBranch, h]

/-- One demo iteration preserves image-only disk output. -/
lemma demoIter_writes_images (S : Nat) (sf : Bool) (ops : DrawOps)
    (custom : ℚ → Img → Img × Option (List DetEvent)) (resize : Img → Img)
    (st : DemoState) (ret : Bool) (frame : Img) (now : ℚ)
    (h : st.writes.all DiskWrite.isImage = true) :
    (((demoIter S sf ops custom resize st ret frame now).1).writes).all
      DiskWrite.isImage = true := by
  by_cases hc : st.skipCounter + 1 < S
  · rw [demoIter_skip S sf ops custom resize st ret frame now hc]
    exact h
  · cases ret with
    | false => simpa [demoIter, hc] using h
    | true =>
      rw [demoIter_kept S sf ops custom resize st frame now hc]
      simp only [List.all_append]
      rw [h, saveBranch_writes_images]
      rfl

/-- A whole demo run preserves image-only disk output. -/
lemma demoFeed_writes_images (S : Nat) (sf : Bool) (ops : DrawOps)
    (custom : ℚ → Img → Img × Option (List DetEvent)) (resize : Img → Img) :
    ∀ (inputs : List (Bool × Img × ℚ)) (st : DemoState),
      st.writes.all DiskWrite.isImage = true →
      (((demoFeed S sf ops custom resize inputs st)).writes).all
        DiskWrite.isImage = true := by
  intro inputs
  induction inputs with
  | nil => intro st h; exact h
  | cons x rest ih =>
    intro st h
    obtain ⟨ret, frame, now⟩ := x
    have hstep := demoIter_writes_images S sf ops custom resize st ret frame now h
    rcases hiter : demoIter S sf ops custom resize st ret frame now with ⟨st', flag⟩
    rw [hiter] at hstep
    cases flag with
    | false => simpa [demoFeed, hiter] using hstep
    | true =>
      have : demoFeed S sf ops custom resize ((ret, frame, now) :: rest) st
          = demoFeed S sf ops custom resize rest st' := by
        simp [demoFeed, hiter]
      rw [this]
      exact ih st' hstep

/-- C9 counterexample: a run with frame saving enabled and one frame
carrying a non-empty event list persists the raw and annotated frames as
images, records the events only in the in-memory dict, and the end-of-run
dump writes nothing (the `save_metadata` calls are commented out) — so the
frame's events are never persisted to disk, contradicting the claim. -/
theorem save_events_not_persisted_cex :
    (demoFeed 0 true idOps evCustom id [(true, [[0]], 1)] (initDemo 0 "demo")).writes
      = [.image "frame_1.jpeg" [[0]], .image "frame_1.bb.jpeg" [[0]]]
    ∧ ((demoFeed 0 true idOps evCustom id [(true, [[0]], 1)]
        (initDemo 0 "demo")).writes).all DiskWrite.isImage = true
    ∧ (demoFeed 0 true idOps evCustom id [(true, [[0]], 1)]
        (initDemo 0 "demo")).detectionEvents = [(1, ["detection"])]
    ∧ finalSave true (demoFeed 0 true idOps evCustom id [(true, [[0]], 1)]
        (initDemo 0 "demo")).detectionEvents = [] := by
  refine ⟨?_, ?_, ?_, ?_⟩ <;> decide

/-- C9 corrected: with saving enabled, the raw frame and the annotated
frame are persisted (as image files) exactly when the returned event list
is non-empty — an empty or absent event list persists nothing — but the
events themselves only ever reach the in-memory `detection_events` dict:
no metadata file is written per frame, every disk write of any run is an
image, and the end-of-run dump writes nothing. -/
theorem save_branch_frames_only :
    (∀ (sf : Bool) (fc : Nat) (f pf : Img) (evs : Option (List DetEvent)),
        ((saveBranch sf fc f pf evs).1).all DiskWrite.isImage = true)
    ∧ (∀ (fc : Nat) (f pf : Img) (evs : List DetEvent), 0 < evs.length →
        saveBranch true fc f pf (some evs)
          = ([.image ("frame_" ++ toString fc ++ ".jpeg") f,
              .image ("frame_" ++ toString fc ++ ".bb.jpeg") pf], [(fc, evs)]))
    ∧ (∀ (sf : Bool) (fc : Nat) (f pf : Img),
        saveBranch sf fc f pf (some []) = ([], [])
        ∧ saveBranch sf fc f pf none = ([], []))
    ∧ (∀ (sf : Bool) (des : List (Nat × List DetEvent)), finalSave sf des = [])
    ∧ (∀ (S : Nat) (sf : Bool) (ops : DrawOps)
        (custom : ℚ → Img → Img × Option (List DetEvent)) (resize : Img → Img)
        (inputs : List (Bool × Img × ℚ)) (st : DemoState),
        st.writes.all DiskWrite.isImage = true →
        (((demoFeed S sf ops custom resize inputs st)).writes).all
          DiskWrite.isImage = true) := by
  refine ⟨saveBranch_writes_images, ?_, ?_, ?_, demoFeed_writes_images⟩
  · intro fc f pf evs h
    simp [saveBranch, h]
  · intro sf fc f pf
    constructor
    · simp [saveBranch]
    · rfl
  · intro sf des
    cases sf <;> rfl

/-- Witness for `save_branch_frames_only` at concrete inputs. -/
theorem save_branch_frames_only_witness :
    saveBranch true 1 [[0]] [[1]] (some ["detection"])
      = ([.image "frame_1.jpeg" [[0]], .image "frame_1.bb.jpeg" [[1]]],
         [(1, ["detection"])])
    ∧ ((demoFeed 0 true idOps evCustom id [(true, [[0]], 1)]
        (initDemo 0 "demo")).writes).all DiskWrite.isImage = true := by
  constructor
  · exact save_branch_frames_only.2.1 1 [[0]] [[1]] ["detection"] (by decide)
  · exact save_branch_frames_only.2.2.2.2 0 true idOps evCustom id
      [(true, [[0]], 1)] (initDemo 0 "demo") (by decide)

/-- Writing one array leaves every other array untouched. -/
lemma read_write_ne (h : PixHeap) (r r' : Nat) (img : Img) (hne : r' ≠ r) :
    (h.write r' img).read r = h.read r := by
  simp only [PixHeap.read, PixHeap.write]
  rcases Nat.lt_or_ge r h.cells.length with hr | hr
  · rw [List.getD_eq_getElem _ _ (by simpa using hr), List.getD_eq_getElem _ _ hr]
    exact List.getElem_set_of_ne hne _ (by simpa using hr)
  · rw [List.getD_eq_default _ _ (by simpa using hr), List.getD_eq_default _ _ hr]

/-- C8: `process_frame` stamps its overlay onto a fresh copy of the input
frame: after the call the caller's array is bit-for-bit what it was, for
every heap, every valid input reference and every behaviour of the drawing
primitives — and the returned frame is a different array. -/
theorem process_frame_input_unmutated (circleFn textFn : Img → Img)
    (h : PixHeap) (r : Nat) (hr : r < h.cells.length) :
    ((processFrameHeap circleFn textFn h r).1).read r = h.read r
    ∧ (processFrameHeap circleFn textFn h r).2 ≠ r := by
  have hne : h.cells.length ≠ r := Nat.ne_of_gt hr
  constructor
  · have step : (PixHeap.mk (h.cells ++ [h.read r])).read r = h.read r := by
      simp only [PixHeap.read]
      exact List.getD_append _ _ _ _ hr
    exact (read_write_ne _ r h.cells.length _ hne).trans
      ((read_write_ne _ r h.cells.length _ hne).trans step)
  · exact hne

/-- Witness for `process_frame_input_unmutated` on a concrete two-array
heap. -/
theorem process_frame_input_unmutated_witness :
    ((processFrameHeap id id (PixHeap.mk [[[1, 2]], [[3]]]) 0).1).read 0
      = (PixHeap.mk [[[1, 2]], [[3]]]).read 0
    ∧ (processFrameHeap id id (PixHeap.mk [[[1, 2]], [[3]]]) 0).2 ≠ 0 :=
  process_frame_input_unmutated id id (PixHeap.mk [[[1, 2]], [[3]]]) 0 (by decide)
